import Mathlib

/-!
Shallow embedding of the xocl address-translator subdevice
(src/runtime_src/core/pcie/driver/linux/xocl/subdev/address_translator.c).

The memory-mapped register window is modelled as a map from byte offsets to
values; a 32-bit read truncates modulo 2^32 and a 32-bit write stores the
value modulo 2^32 at its offset.  The two driver operations are embedded as
pure functions: the capability query returns the value it reads, and the
table-programming routine returns the C return code together with the ordered
list of 32-bit register writes it performs, so that both the final register
state and the write ordering can be reasoned about.
-/

/-- 2^32, the bound of a 32-bit machine word. -/
def U32 : Nat := 2 ^ 32

/-- 2^64, the bound of a 64-bit machine word. -/
def U64 : Nat := 2 ^ 64

/-- Byte offset of the read-only version register (field ver of struct trans_regs). -/
def ADDR_VER : Nat := 0x0

/-- Byte offset of the read-only capability register (field cap of struct trans_regs). -/
def ADDR_CAP : Nat := 0x4

/-- Byte offset of the entry-count register (field entry_num of struct trans_regs). -/
def ADDR_ENTRY_NUM : Nat := 0x8

/-- Byte offset of the low half of the base address (field base_addr.lo). -/
def ADDR_BASE_LO : Nat := 0x10

/-- Byte offset of the high half of the base address (field base_addr.hi). -/
def ADDR_BASE_HI : Nat := 0x14

/-- Byte offset of the range register (field addr_range of struct trans_regs). -/
def ADDR_RANGE : Nat := 0x18

/-- Byte offset of page_table_phys i .lo: the array starts at 0x800 (after the
2020-byte padding field) and each struct trans_addr entry is 8 bytes. -/
def pageTableLo (i : Nat) : Nat := 0x800 + 8 * i

/-- Byte offset of page_table_phys i .hi, 4 bytes after the low half. -/
def pageTableHi (i : Nat) : Nat := 0x800 + 8 * i + 4

/-- The register window: a map from byte offsets to register values. -/
abbrev RegState := Nat → Nat

/-- A 32-bit register read (xocl_dr_reg_read32): the register holds 32 bits. -/
def reg_read32 (s : RegState) (off : Nat) : Nat := s off % U32

/-- One 32-bit register write (xocl_dr_reg_write32) applied to the state:
the written value is truncated to the 32-bit register width. -/
def applyWrite (s : RegState) (w : Nat × Nat) : RegState :=
  fun off => if off = w.1 then w.2 % U32 else s off

/-- Apply an ordered list of 32-bit register writes, first element first. -/
def applyWrites (ws : List (Nat × Nat)) (s : RegState) : RegState :=
  ws.foldl applyWrite s

/-- Linux is_power_of_2 from linux/log2.h: n != 0 && ((n & (n - 1)) == 0). -/
def is_power_of_2 (n : Nat) : Bool := n != 0 && (n &&& (n - 1) == 0)

/-- Base-2 logarithm with explicit structural fuel (the recursion of
Nat.log2, made kernel-reducible; fuel n suffices for argument n). -/
def log2fuel : Nat → Nat → Nat
  | 0, _ => 0
  | fuel + 1, n => if 2 ≤ n then log2fuel fuel (n / 2) + 1 else 0

/-- Linux fls64 ("find last set"): the 1-based index of the most significant
set bit of a 64-bit value, with fls64 0 = 0. -/
def fls64 (n : Nat) : Nat := if n = 0 then 0 else log2fuel n n + 1

/-- Linux ilog2 on a runtime u64 operand, from linux/log2.h:
__ilog2_u64 n = fls64 n - 1, a C int (so ilog2 0 = -1). -/
def ilog2 (n : Nat) : Int := (fls64 n : Int) - 1

/-- The C assignment of the int result of ilog2 to the uint32_t local
range_in_log: reduction modulo 2^32 of the signed value. -/
def ilog2_u32 (n : Nat) : Nat := (ilog2 n % (U32 : Int)).toNat

/-- The write loop of addr_translator_set_page_table
(for ( ; i < num; ++i) over phys_addrs).  The first argument of the recursion
is the absolute index i, the fuel is the number of entries still to process
(num - i).  Result: the ordered writes the loop performed (also on failure,
where they are the writes issued before the zero address was found) and
whether the loop ran to completion (false means the early return -EINVAL). -/
def pageWrites (phys_addrs : List Nat) (i : Nat) : Nat → List (Nat × Nat) × Bool
  | 0 => ([], true)
  | n + 1 =>
    let addr := phys_addrs.getD i 0 % U64
    if addr = 0 then ([], false)
    else
      let rest := pageWrites phys_addrs (i + 1) n
      ((pageTableLo i, addr &&& 0xFFFFFFFF) :: (pageTableHi i, addr >>> 32) :: rest.1,
        rest.2)

/-- addr_translator_set_page_table: validates num against the capability
register and against is_power_of_2, then writes the page-table entries, the
two base-address halves, the log2-encoded range, and finally the entry count.
Returns the C return code (0 or -EINVAL = -22) and the ordered list of 32-bit
register writes performed. -/
def set_page_table (s : RegState) (phys_addrs : List Nat)
    (base_addr entry_sz num : Nat) : Int × List (Nat × Nat) :=
  let range := num * entry_sz % U64
  let num_max := reg_read32 s ADDR_CAP >>> 16 &&& 0x1ff
  if num > num_max then (-22, [])
  else if !is_power_of_2 num then (-22, [])
  else
    let pw := pageWrites phys_addrs 0 num
    if !pw.2 then (-22, pw.1)
    else
      (0, pw.1 ++
        [(ADDR_BASE_LO, base_addr &&& 0xFFFFFFFF),
         (ADDR_BASE_HI, base_addr >>> 32 &&& 0xFFFFFFFF),
         (ADDR_RANGE, ilog2_u32 range),
         (ADDR_ENTRY_NUM, num)])

/-- addr_translator_get_entries_num: reads the capability register at offset
0x4 and extracts bits 16-24 (shift right 16, mask 0x1ff). -/
def get_entries_num (s : RegState) : Nat := reg_read32 s ADDR_CAP >>> 16 &&& 0x1ff

/-- The full body of addr_translator_get_entries_num as a transaction on the
register window: the ordered list of register writes it performs (its body
contains a single xocl_dr_reg_read32 and no write call) and its return value. -/
def get_entries_num_run (s : RegState) : List (Nat × Nat) × Nat :=
  ([], get_entries_num s)

/-- Hex digits of n, most significant first, lowercase, as printed by the C
conversion %x; the first argument is structural fuel (n itself suffices). -/
def hexChars : Nat → Nat → List Char
  | 0, _ => []
  | _ + 1, 0 => []
  | fuel + 1, n => hexChars fuel (n / 16) ++ [Nat.digitChar (n % 16)]

/-- Rendering of n by the C conversion %x: lowercase hexadecimal, no leading
zeros, and the single digit 0 for n = 0. -/
def toHex (n : Nat) : String := if n = 0 then "0" else String.mk (hexChars n n)

/-- The sysfs show routine num_show:
sprintf(buf, "0x%x\n", addr_translator_get_entries_num(...)). -/
def num_show (s : RegState) : String := "0x" ++ toHex (get_entries_num s) ++ "\n"

/-! Concrete register states used by witnesses and counterexamples. -/

/-- A register window whose capability field (bits 16-24 of offset 0x4)
reports capacity 256, as in the spec's Scenario 1. -/
def capState256 : RegState := fun off => if off = ADDR_CAP then 0x1000000 else 0

/-- A register window whose capability field reports capacity 1. -/
def capState1 : RegState := fun off => if off = ADDR_CAP then 0x10000 else 0

/-- A register window whose capability field holds 3 while the entry-count
register at offset 0x8 holds 5, separating the two status sources. -/
def mixedState : RegState :=
  fun off => if off = ADDR_CAP then 0x30000 else if off = ADDR_ENTRY_NUM then 5 else 0

theorem log2fuel_eq_log2 : ∀ fuel n, n ≤ fuel → log2fuel fuel n = Nat.log2 n := by
  intro fuel
  induction fuel with
  | zero =>
    intro n hn
    have : n = 0 := Nat.le_zero.mp hn
    subst this
    simp [log2fuel, Nat.log2_zero]
  | succ fuel ih =>
    intro n hn
    rw [log2fuel, Nat.log2]
    by_cases h2 : 2 ≤ n
    · have hdiv : n / 2 ≤ fuel := by
        have hlt : n / 2 < n := Nat.div_lt_self (by omega) (by omega)
        omega
      rw [if_pos h2, if_pos h2, ih (n / 2) hdiv]
    · rw [if_neg h2, if_neg h2]

theorem fls64_eq (n : Nat) : fls64 n = if n = 0 then 0 else Nat.log2 n + 1 := by
  unfold fls64
  by_cases h : n = 0
  · simp [h]
  · simp [h, log2fuel_eq_log2 n n (Nat.le_refl n)]

/-! Generic facts about applying write lists to the register window. -/

theorem applyWrites_nil (s : RegState) : applyWrites [] s = s := rfl

theorem applyWrites_cons (w : Nat × Nat) (ws : List (Nat × Nat)) (s : RegState) :
    applyWrites (w :: ws) s = applyWrites ws (applyWrite s w) := rfl

theorem applyWrites_append (ws₁ ws₂ : List (Nat × Nat)) (s : RegState) :
    applyWrites (ws₁ ++ ws₂) s = applyWrites ws₂ (applyWrites ws₁ s) :=
  List.foldl_append applyWrite s ws₁ ws₂

theorem applyWrite_same (s : RegState) (w : Nat × Nat) (off : Nat) (h : off = w.1) :
    applyWrite s w off = w.2 % U32 := by
  unfold applyWrite; rw [if_pos h]

theorem applyWrite_other (s : RegState) (w : Nat × Nat) (off : Nat) (h : off ≠ w.1) :
    applyWrite s w off = s off := by
  unfold applyWrite; rw [if_neg h]

theorem applyWrites_of_not_mem (ws : List (Nat × Nat)) (s : RegState) (off : Nat)
    (h : ∀ w ∈ ws, w.1 ≠ off) : applyWrites ws s off = s off := by
  induction ws generalizing s with
  | nil => rfl
  | cons w ws ih =>
    rw [applyWrites_cons, ih _ fun x hx => h x (List.mem_cons_of_mem w hx)]
    exact applyWrite_other s w off fun hh => h w (List.mem_cons_self w ws) hh.symm

/-! Offset arithmetic for the register map. -/

theorem pageTableLo_ne_hi (a b : Nat) : pageTableLo a ≠ pageTableHi b := by
  unfold pageTableLo pageTableHi; omega

theorem pageTableLo_inj {a b : Nat} (h : a ≠ b) : pageTableLo a ≠ pageTableLo b := by
  unfold pageTableLo; omega

theorem pageTableHi_inj {a b : Nat} (h : a ≠ b) : pageTableHi a ≠ pageTableHi b := by
  unfold pageTableHi; omega

/-! Characterization of the write loop. -/

theorem pageWrites_offsets (phys : List Nat) :
    ∀ n i w, w ∈ (pageWrites phys i n).1 →
      ∃ j, j < n ∧ (w.1 = pageTableLo (i + j) ∨ w.1 = pageTableHi (i + j)) := by
  intro n
  induction n with
  | zero => intro i w hw; simp [pageWrites] at hw
  | succ n ih =>
    intro i w hw
    by_cases h0 : phys.getD i 0 % U64 = 0
    · simp only [pageWrites] at hw
      rw [if_pos h0] at hw
      exact absurd hw (List.not_mem_nil w)
    · simp only [pageWrites] at hw
      rw [if_neg h0] at hw
      rcases List.mem_cons.mp hw with h | hw
      · exact ⟨0, Nat.succ_pos n, Or.inl (by rw [h, Nat.add_zero])⟩
      rcases List.mem_cons.mp hw with h | hw
      · exact ⟨0, Nat.succ_pos n, Or.inr (by rw [h, Nat.add_zero])⟩
      obtain ⟨j, hj, hoff⟩ := ih (i + 1) w hw
      refine ⟨j + 1, Nat.succ_lt_succ hj, ?_⟩
      rw [show i + (j + 1) = i + 1 + j from by omega]
      exact hoff

theorem pageWrites_success (phys : List Nat) :
    ∀ n i, (∀ j, j < n → phys.getD (i + j) 0 % U64 ≠ 0) →
      (pageWrites phys i n).2 = true := by
  intro n
  induction n with
  | zero => intro i _; rfl
  | succ n ih =>
    intro i h
    have h0 : phys.getD i 0 % U64 ≠ 0 := by
      have := h 0 (Nat.succ_pos n); rwa [Nat.add_zero] at this
    simp only [pageWrites, h0, ite_false, if_neg]
    exact ih (i + 1) fun j hj => by
      have := h (j + 1) (Nat.succ_lt_succ hj)
      rwa [show i + (j + 1) = i + 1 + j from by omega] at this

theorem and_mask32 (n : Nat) : n &&& 0xFFFFFFFF = n % U32 := by
  have : (0xFFFFFFFF : Nat) = 2 ^ 32 - 1 := by norm_num
  rw [this, Nat.and_pow_two_sub_one_eq_mod]
  rfl

theorem shiftRight32_eq_div (n : Nat) : n >>> 32 = n / U32 := by
  rw [Nat.shiftRight_eq_div_pow]
  rfl

theorem pageWrites_readback (phys : List Nat) :
    ∀ n i s j, j < n →
      (∀ k, k < n → phys.getD (i + k) 0 % U64 ≠ 0) →
      applyWrites (pageWrites phys i n).1 s (pageTableLo (i + j)) =
        phys.getD (i + j) 0 % U64 % U32 ∧
      applyWrites (pageWrites phys i n).1 s (pageTableHi (i + j)) =
        phys.getD (i + j) 0 % U64 / U32 := by
  intro n
  induction n with
  | zero => intro i s j hj; omega
  | succ n ih =>
    intro i s j hj hnz
    have h0 : phys.getD i 0 % U64 ≠ 0 := by
      have := hnz 0 (Nat.succ_pos n); rwa [Nat.add_zero] at this
    simp only [pageWrites]
    rw [if_neg h0]
    rw [show (((pageTableLo i, phys.getD i 0 % U64 &&& 0xFFFFFFFF) ::
        (pageTableHi i, (phys.getD i 0 % U64) >>> 32) :: (pageWrites phys (i + 1) n).1,
        (pageWrites phys (i + 1) n).2) : List (Nat × Nat) × Bool).1 =
        (pageTableLo i, phys.getD i 0 % U64 &&& 0xFFFFFFFF) ::
        (pageTableHi i, (phys.getD i 0 % U64) >>> 32) :: (pageWrites phys (i + 1) n).1 from rfl]
    rw [applyWrites_cons, applyWrites_cons]
    by_cases hj0 : j = 0
    · subst hj0
      simp only [Nat.add_zero]
      have hrest : ∀ w ∈ (pageWrites phys (i + 1) n).1,
          w.1 ≠ pageTableLo i ∧ w.1 ≠ pageTableHi i := by
        intro w hw
        obtain ⟨k, _, hoff⟩ := pageWrites_offsets phys n (i + 1) w hw
        rcases hoff with h | h <;> rw [h]
        · exact ⟨pageTableLo_inj (by omega), pageTableLo_ne_hi _ _⟩
        · exact ⟨fun hh => pageTableLo_ne_hi i (i + 1 + k) hh.symm,
            pageTableHi_inj (by omega)⟩
      constructor
      · rw [applyWrites_of_not_mem _ _ _ fun w hw => (hrest w hw).1]
        rw [applyWrite_other _ _ _ (pageTableLo_ne_hi i i)]
        rw [applyWrite_same _ _ _ rfl]
        rw [show ((pageTableLo i, phys.getD i 0 % U64 &&& 0xFFFFFFFF) : Nat × Nat).2 =
          phys.getD i 0 % U64 &&& 0xFFFFFFFF from rfl]
        rw [and_mask32]
        exact Nat.mod_mod_of_dvd _ dvd_rfl
      · rw [applyWrites_of_not_mem _ _ _ fun w hw => (hrest w hw).2]
        rw [applyWrite_same _ _ _ rfl]
        rw [show ((pageTableHi i, (phys.getD i 0 % U64) >>> 32) : Nat × Nat).2 =
          (phys.getD i 0 % U64) >>> 32 from rfl]
        rw [shiftRight32_eq_div]
        apply Nat.mod_eq_of_lt
        have hlt : phys.getD i 0 % U64 < U64 := Nat.mod_lt _ (by unfold U64; positivity)
        have hsq : U64 = U32 * U32 := by unfold U64 U32; norm_num
        rw [Nat.div_lt_iff_lt_mul (by unfold U32; positivity)]
        omega
    · obtain ⟨j', rfl⟩ : ∃ j', j = j' + 1 := ⟨j - 1, by omega⟩
      rw [show i + (j' + 1) = i + 1 + j' from by omega]
      exact ih (i + 1) _ j' (by omega) fun k hk => by
        have := hnz (k + 1) (Nat.succ_lt_succ hk)
        rwa [show i + (k + 1) = i + 1 + k from by omega] at this

theorem pageWrites_fail (phys : List Nat) :
    ∀ k i n, k < n → phys.getD (i + k) 0 % U64 = 0 →
      (∀ j, j < k → phys.getD (i + j) 0 % U64 ≠ 0) →
      pageWrites phys i n = ((pageWrites phys i k).1, false) := by
  intro k
  induction k with
  | zero =>
    intro i n hn h0 _
    obtain ⟨m, rfl⟩ : ∃ m, n = m + 1 := ⟨n - 1, by omega⟩
    simp only [Nat.add_zero] at h0
    simp only [pageWrites]
    rw [if_pos h0]
  | succ k ih =>
    intro i n hn h0 hnz
    obtain ⟨m, rfl⟩ : ∃ m, n = m + 1 := ⟨n - 1, by omega⟩
    have hi0 : phys.getD i 0 % U64 ≠ 0 := by
      have := hnz 0 (Nat.succ_pos k); simpa using this
    have hrec := ih (i + 1) m (by omega)
      (by rw [show i + 1 + k = i + (k + 1) from by omega]; exact h0)
      (fun j hj => by
        have := hnz (j + 1) (Nat.succ_lt_succ hj)
        rwa [show i + (j + 1) = i + 1 + j from by omega] at this)
    simp only [pageWrites]
    rw [if_neg hi0, if_neg hi0, hrec]

/-! Shape of the four control paths of addr_translator_set_page_table. -/

theorem set_page_table_capfail (s : RegState) (phys : List Nat) (b e num : Nat)
    (h : get_entries_num s < num) : set_page_table s phys b e num = (-22, []) := by
  simp only [set_page_table]
  have h' : num > reg_read32 s ADDR_CAP >>> 16 &&& 0x1ff := h
  rw [if_pos h']

theorem set_page_table_pow2fail (s : RegState) (phys : List Nat) (b e num : Nat)
    (hcap : num ≤ get_entries_num s) (h : is_power_of_2 num = false) :
    set_page_table s phys b e num = (-22, []) := by
  simp only [set_page_table]
  have h' : ¬num > reg_read32 s ADDR_CAP >>> 16 &&& 0x1ff := Nat.not_lt.mpr hcap
  rw [if_neg h', if_pos (show (!is_power_of_2 num) = true by rw [h]; rfl)]

theorem set_page_table_loopfail (s : RegState) (phys : List Nat) (b e num : Nat)
    (hcap : num ≤ get_entries_num s) (hpow : is_power_of_2 num = true)
    (hloop : (pageWrites phys 0 num).2 = false) :
    set_page_table s phys b e num = (-22, (pageWrites phys 0 num).1) := by
  simp only [set_page_table]
  have h' : ¬num > reg_read32 s ADDR_CAP >>> 16 &&& 0x1ff := Nat.not_lt.mpr hcap
  rw [if_neg h',
    if_neg (show ¬(!is_power_of_2 num) = true by rw [hpow]; decide),
    if_pos (show (!(pageWrites phys 0 num).2) = true by rw [hloop]; rfl)]

theorem set_page_table_success_eq (s : RegState) (phys : List Nat) (b e num : Nat)
    (hcap : num ≤ get_entries_num s) (hpow : is_power_of_2 num = true)
    (hloop : (pageWrites phys 0 num).2 = true) :
    set_page_table s phys b e num =
      ((0 : Int), (pageWrites phys 0 num).1 ++
        [(ADDR_BASE_LO, b &&& 0xFFFFFFFF),
         (ADDR_BASE_HI, b >>> 32 &&& 0xFFFFFFFF),
         (ADDR_RANGE, ilog2_u32 (num * e % U64)),
         (ADDR_ENTRY_NUM, num)]) := by
  simp only [set_page_table]
  have h' : ¬num > reg_read32 s ADDR_CAP >>> 16 &&& 0x1ff := Nat.not_lt.mpr hcap
  rw [if_neg h',
    if_neg (show ¬(!is_power_of_2 num) = true by rw [hpow]; decide),
    if_neg (show ¬(!(pageWrites phys 0 num).2) = true by rw [hloop]; decide)]

theorem set_page_table_ret_zero (s : RegState) (phys : List Nat) (b e num : Nat)
    (h : (set_page_table s phys b e num).1 = 0) :
    num ≤ get_entries_num s ∧ is_power_of_2 num = true ∧
      (pageWrites phys 0 num).2 = true := by
  by_cases h1 : get_entries_num s < num
  · rw [set_page_table_capfail s phys b e num h1] at h
    simp at h
  · have hcap := Nat.not_lt.mp h1
    by_cases h2 : is_power_of_2 num = true
    · by_cases h3 : (pageWrites phys 0 num).2 = true
      · exact ⟨hcap, h2, h3⟩
      · rw [Bool.not_eq_true] at h3
        rw [set_page_table_loopfail s phys b e num hcap h2 h3] at h
        simp at h
    · rw [Bool.not_eq_true] at h2
      rw [set_page_table_pow2fail s phys b e num hcap h2] at h
      simp at h

/-! Helpers for reassembling 64-bit values from register halves. -/

theorem mod64_div32_lt (n : Nat) (h : n < U64) : n / U32 < U32 := by
  have hsq : U64 = U32 * U32 := by unfold U64 U32; norm_num
  rw [Nat.div_lt_iff_lt_mul (by unfold U32; positivity)]
  omega

theorem get_entries_num_le (s : RegState) : get_entries_num s ≤ 0x1ff :=
  Nat.and_le_right

set_option maxRecDepth 4096 in
theorem pow2_bound : ∀ n, n < 512 → is_power_of_2 n = true → n ≤ 256 := by decide

/-! Further helper lemmas. -/

theorem small_ne_pageTableLo (off i : Nat) (h : off < 0x800) : off ≠ pageTableLo i := by
  unfold pageTableLo; omega

theorem small_ne_pageTableHi (off i : Nat) (h : off < 0x800) : off ≠ pageTableHi i := by
  unfold pageTableHi; omega

theorem pageTable_offset_ne_small (w1 : Nat) (off : Nat) (hoff : off < 0x800)
    (h : ∃ j, w1 = pageTableLo j ∨ w1 = pageTableHi j) : w1 ≠ off := by
  obtain ⟨j, h | h⟩ := h
  · rw [h]; unfold pageTableLo; omega
  · rw [h]; unfold pageTableHi; omega

theorem set_page_table_success_trace (s : RegState) (phys : List Nat) (b e num : Nat)
    (hcap : num ≤ get_entries_num s) (hpow : is_power_of_2 num = true)
    (hloop : (pageWrites phys 0 num).2 = true) :
    (set_page_table s phys b e num).2 =
      (pageWrites phys 0 num).1 ++
        [(ADDR_BASE_LO, b &&& 0xFFFFFFFF),
         (ADDR_BASE_HI, b >>> 32 &&& 0xFFFFFFFF),
         (ADDR_RANGE, ilog2_u32 (num * e % U64)),
         (ADDR_ENTRY_NUM, num)] := by
  rw [set_page_table_success_eq s phys b e num hcap hpow hloop]

theorem tail_writes_ne_pageTable (b num ilg i : Nat) :
    ∀ w ∈ [((ADDR_BASE_LO : Nat), b &&& 0xFFFFFFFF),
           (ADDR_BASE_HI, b >>> 32 &&& 0xFFFFFFFF),
           (ADDR_RANGE, ilg), (ADDR_ENTRY_NUM, num)],
      w.1 ≠ pageTableLo i ∧ w.1 ≠ pageTableHi i := by
  intro w hw
  fin_cases hw
  · exact ⟨small_ne_pageTableLo _ _ (show ADDR_BASE_LO < 0x800 by decide),
      small_ne_pageTableHi _ _ (show ADDR_BASE_LO < 0x800 by decide)⟩
  · exact ⟨small_ne_pageTableLo _ _ (show ADDR_BASE_HI < 0x800 by decide),
      small_ne_pageTableHi _ _ (show ADDR_BASE_HI < 0x800 by decide)⟩
  · exact ⟨small_ne_pageTableLo _ _ (show ADDR_RANGE < 0x800 by decide),
      small_ne_pageTableHi _ _ (show ADDR_RANGE < 0x800 by decide)⟩
  · exact ⟨small_ne_pageTableLo _ _ (show ADDR_ENTRY_NUM < 0x800 by decide),
      small_ne_pageTableHi _ _ (show ADDR_ENTRY_NUM < 0x800 by decide)⟩

theorem ilog2_u32_eq_log2 (n : Nat) (h : n ≠ 0) (hlt : n < U64) :
    ilog2_u32 n = Nat.log2 n := by
  unfold ilog2_u32 ilog2
  rw [fls64_eq, if_neg h]
  have h1 : ((Nat.log2 n + 1 : Nat) : Int) - 1 = ((Nat.log2 n : Nat) : Int) := by
    push_cast; ring
  rw [h1]
  have h64 : Nat.log2 n < 64 := (Nat.log2_lt h).mpr hlt
  have h32 : Nat.log2 n < U32 := by
    have hb : (64 : Nat) ≤ U32 := by unfold U32; norm_num
    omega
  have hlt32 : ((Nat.log2 n : Nat) : Int) < ((U32 : Nat) : Int) := by exact_mod_cast h32
  rw [Int.emod_eq_of_lt (by positivity) hlt32]
  simp

/-! Claim theorems. -/

/-- C6: for every capability-register value v, the capability query returns
exactly (v >>> 16) &&& 0x1ff, i.e. bits 16-24 of the 32-bit capability
register at offset 0x4. -/
theorem get_entries_num_extracts_cap_bits (s : RegState) (v : Nat)
    (hv : v < U32) (hreg : s ADDR_CAP = v) :
    (get_entries_num_run s).2 = v >>> 16 &&& 0x1ff := by
  show get_entries_num s = v >>> 16 &&& 0x1ff
  unfold get_entries_num reg_read32
  rw [hreg, Nat.mod_eq_of_lt hv]

/-- Witness for C6 at the capability value 0x1000000 (capacity 256). -/
theorem get_entries_num_extracts_cap_bits_witness :
    (get_entries_num_run capState256).2 = 0x1000000 >>> 16 &&& 0x1ff :=
  get_entries_num_extracts_cap_bits capState256 0x1000000 (by decide) rfl

/-- C10: the capability query performs no register writes; after it runs,
every register offset holds the same value as before. -/
theorem get_entries_num_no_writes (s : RegState) :
    (get_entries_num_run s).1 = [] ∧
    ∀ off, applyWrites (get_entries_num_run s).1 s off = s off :=
  ⟨rfl, fun _ => rfl⟩

/-- C1 counterexample: on a state whose entry-count register (offset 0x8)
holds 5 while the capability field holds 3, the status string is not the
hexadecimal rendering of the entry-count register: num_show reads the
capability register at offset 0x4, not the entry-count register. -/
theorem num_show_not_entry_count_register :
    num_show mixedState ≠ "0x" ++ toHex (reg_read32 mixedState ADDR_ENTRY_NUM) ++ "\n" := by
  decide

/-- C1 (amended): the status string produced by num_show is the hexadecimal
rendering (with trailing newline) of bits 16-24 of the capability register at
offset 0x4 — the entry capacity — not of the entry-count register at 0x8. -/
theorem num_show_formats_capability_field (s : RegState) :
    num_show s = "0x" ++ toHex (reg_read32 s ADDR_CAP >>> 16 &&& 0x1ff) ++ "\n" := rfl

/-- C2: configure succeeds only if num_entries is a power of two and at most
the capacity read from the capability register at call time; when either of
these two conditions fails it returns -EINVAL and performs zero register
writes, leaving every register unchanged. -/
theorem set_page_table_validation_gate (s : RegState) (phys : List Nat)
    (base_addr entry_sz num : Nat) :
    ((set_page_table s phys base_addr entry_sz num).1 = 0 →
      is_power_of_2 num = true ∧ num ≤ get_entries_num s) ∧
    ((is_power_of_2 num = false ∨ get_entries_num s < num) →
      (set_page_table s phys base_addr entry_sz num).1 = -22 ∧
      (set_page_table s phys base_addr entry_sz num).2 = [] ∧
      ∀ off, applyWrites (set_page_table s phys base_addr entry_sz num).2 s off = s off) := by
  constructor
  · intro h
    obtain ⟨hcap, hpow, _⟩ := set_page_table_ret_zero s phys base_addr entry_sz num h
    exact ⟨hpow, hcap⟩
  · intro h
    have heq : set_page_table s phys base_addr entry_sz num = (-22, []) := by
      by_cases h1 : get_entries_num s < num
      · exact set_page_table_capfail _ _ _ _ _ h1
      · rcases h with h | h
        · exact set_page_table_pow2fail _ _ _ _ _ (Nat.not_lt.mp h1) h
        · exact absurd h h1
    rw [heq]
    exact ⟨rfl, rfl, fun off => rfl⟩

/-- Witness for C2: num_entries = 3 is not a power of two, so configure
fails with -EINVAL and writes nothing (the spec's Scenario 2). -/
theorem set_page_table_validation_gate_witness :
    (set_page_table capState256 [0x1000] 0 0x1000 3).1 = -22 ∧
    (set_page_table capState256 [0x1000] 0 0x1000 3).2 = [] := by
  have h := (set_page_table_validation_gate capState256 [0x1000] 0 0x1000 3).2
    (Or.inl (by decide))
  exact ⟨h.1, h.2.1⟩

/-- C3: for every configure call that passes validation (num_entries a power
of two and within capacity, all num_entries addresses non-zero 64-bit
values), reading back the low half at offset 0x800+8i and the high half at
0x800+8i+4 reconstructs phys_addrs i bit-for-bit. -/
theorem set_page_table_readback (s : RegState) (phys : List Nat)
    (base_addr entry_sz num : Nat)
    (hcap : num ≤ get_entries_num s) (hpow : is_power_of_2 num = true)
    (hnz : ∀ i, i < num → phys.getD i 0 ≠ 0)
    (hlt : ∀ i, i < num → phys.getD i 0 < U64) :
    ∀ i, i < num →
      reg_read32 (applyWrites (set_page_table s phys base_addr entry_sz num).2 s)
          (pageTableLo i) +
        U32 * reg_read32 (applyWrites (set_page_table s phys base_addr entry_sz num).2 s)
          (pageTableHi i) = phys.getD i 0 := by
  intro i hi
  have hnz' : ∀ k, k < num → phys.getD (0 + k) 0 % U64 ≠ 0 := fun k hk => by
    rw [Nat.zero_add, Nat.mod_eq_of_lt (hlt k hk)]
    exact hnz k hk
  have hloop : (pageWrites phys 0 num).2 = true := pageWrites_success phys num 0 hnz'
  rw [set_page_table_success_trace s phys base_addr entry_sz num hcap hpow hloop,
    applyWrites_append]
  have htail := tail_writes_ne_pageTable base_addr num (ilog2_u32 (num * entry_sz % U64)) i
  have hread := pageWrites_readback phys num 0 s i hi hnz'
  simp only [Nat.zero_add] at hread
  unfold reg_read32
  rw [applyWrites_of_not_mem _ _ _ fun w hw => (htail w hw).1,
    applyWrites_of_not_mem _ _ _ fun w hw => (htail w hw).2,
    hread.1, hread.2]
  have ha_lt : phys.getD i 0 % U64 < U64 := Nat.mod_lt _ (by unfold U64; positivity)
  rw [Nat.mod_mod_of_dvd _ dvd_rfl, Nat.mod_eq_of_lt (mod64_div32_lt _ ha_lt),
    Nat.mod_add_div]
  exact Nat.mod_eq_of_lt (hlt i hi)

/-- Witness for C3 at the spec's Scenario 1 inputs, reading back entry 2. -/
theorem set_page_table_readback_witness :
    reg_read32 (applyWrites (set_page_table capState256 [0x1000, 0x2000, 0x3000, 0x4000]
        0x100000000 0x1000 4).2 capState256) (pageTableLo 2) +
      U32 * reg_read32 (applyWrites (set_page_table capState256 [0x1000, 0x2000, 0x3000, 0x4000]
        0x100000000 0x1000 4).2 capState256) (pageTableHi 2) =
      ([0x1000, 0x2000, 0x3000, 0x4000] : List Nat).getD 2 0 :=
  set_page_table_readback capState256 [0x1000, 0x2000, 0x3000, 0x4000] 0x100000000 0x1000 4
    (by decide) (by decide) (by decide) (by decide) 2 (by decide)

/-- C4: when configure passes the capacity and power-of-two checks but entry
k is the first zero address, it returns -EINVAL, the page-table registers for
indices below k already hold the new addresses, and no write touches the
base-address, range, or entry-count registers. -/
theorem set_page_table_partial_write (s : RegState) (phys : List Nat)
    (base_addr entry_sz num k : Nat)
    (hcap : num ≤ get_entries_num s) (hpow : is_power_of_2 num = true)
    (hk : k < num) (hzero : phys.getD k 0 = 0)
    (hnz : ∀ i, i < k → phys.getD i 0 ≠ 0)
    (hlt : ∀ i, i < k → phys.getD i 0 < U64) :
    (set_page_table s phys base_addr entry_sz num).1 = -22 ∧
    (∀ i, i < k →
      reg_read32 (applyWrites (set_page_table s phys base_addr entry_sz num).2 s)
          (pageTableLo i) +
        U32 * reg_read32 (applyWrites (set_page_table s phys base_addr entry_sz num).2 s)
          (pageTableHi i) = phys.getD i 0) ∧
    (∀ w ∈ (set_page_table s phys base_addr entry_sz num).2,
      w.1 ≠ ADDR_BASE_LO ∧ w.1 ≠ ADDR_BASE_HI ∧ w.1 ≠ ADDR_RANGE ∧
        w.1 ≠ ADDR_ENTRY_NUM) := by
  have hnz' : ∀ j, j < k → phys.getD (0 + j) 0 % U64 ≠ 0 := fun j hj => by
    rw [Nat.zero_add, Nat.mod_eq_of_lt (hlt j hj)]
    exact hnz j hj
  have hfail := pageWrites_fail phys k 0 num hk
    (by rw [Nat.zero_add, hzero]; simp) hnz'
  have hloop : (pageWrites phys 0 num).2 = false := by rw [hfail]
  have heq := set_page_table_loopfail s phys base_addr entry_sz num hcap hpow hloop
  have htrace : (set_page_table s phys base_addr entry_sz num).2 =
      (pageWrites phys 0 k).1 := by
    rw [heq, hfail]
  refine ⟨by rw [heq], ?_, ?_⟩
  · intro i hi
    rw [htrace]
    have hread := pageWrites_readback phys k 0 s i hi hnz'
    simp only [Nat.zero_add] at hread
    unfold reg_read32
    rw [hread.1, hread.2]
    have ha_lt : phys.getD i 0 % U64 < U64 := Nat.mod_lt _ (by unfold U64; positivity)
    rw [Nat.mod_mod_of_dvd _ dvd_rfl, Nat.mod_eq_of_lt (mod64_div32_lt _ ha_lt),
      Nat.mod_add_div]
    exact Nat.mod_eq_of_lt (hlt i hi)
  · intro w hw
    rw [htrace] at hw
    obtain ⟨j, _, hoff⟩ := pageWrites_offsets phys k 0 w hw
    simp only [Nat.zero_add] at hoff
    exact ⟨pageTable_offset_ne_small w.1 ADDR_BASE_LO (by decide) ⟨j, hoff⟩,
      pageTable_offset_ne_small w.1 ADDR_BASE_HI (by decide) ⟨j, hoff⟩,
      pageTable_offset_ne_small w.1 ADDR_RANGE (by decide) ⟨j, hoff⟩,
      pageTable_offset_ne_small w.1 ADDR_ENTRY_NUM (by decide) ⟨j, hoff⟩⟩

/-- Witness for C4 at the spec's Scenario 3 inputs (zero address at index 2):
the call fails with -EINVAL and index 1 is already written. -/
theorem set_page_table_partial_write_witness :
    (set_page_table capState256 [0x1000, 0x2000, 0, 0x4000] 0x100000000 0x1000 4).1 = -22 ∧
    reg_read32 (applyWrites (set_page_table capState256 [0x1000, 0x2000, 0, 0x4000]
        0x100000000 0x1000 4).2 capState256) (pageTableLo 1) +
      U32 * reg_read32 (applyWrites (set_page_table capState256 [0x1000, 0x2000, 0, 0x4000]
        0x100000000 0x1000 4).2 capState256) (pageTableHi 1) =
      ([0x1000, 0x2000, 0, 0x4000] : List Nat).getD 1 0 := by
  have h := set_page_table_partial_write capState256 [0x1000, 0x2000, 0, 0x4000]
    0x100000000 0x1000 4 2 (by decide) (by decide) (by decide) (by decide)
    (by decide) (by decide)
  exact ⟨h.1, h.2.1 1 (by decide)⟩

/-- C5 counterexample: configure with entry_sz = 0 succeeds (num = 1,
capacity 1, non-zero address), yet the range register does not hold
log2(num * entry_sz): the kernel's ilog2(0) is -1, stored as 0xFFFFFFFF,
while the mathematical floor log2 of 0 is not representable (Nat.log2 0 = 0). -/
theorem range_register_zero_product_cex :
    (set_page_table capState1 [0x1000] 0 0 1).1 = 0 ∧
    reg_read32 (applyWrites (set_page_table capState1 [0x1000] 0 0 1).2 capState1)
      ADDR_RANGE ≠ Nat.log2 (1 * 0 % U64) := by
  constructor
  · decide
  · have h : Nat.log2 (1 * 0 % U64) = 0 := by
      rw [show 1 * 0 % U64 = 0 from by simp]
      exact Nat.log2_zero
    rw [h]
    decide

/-- C5 (amended): after every successful configure whose 64-bit product
num_entries * entry_size is non-zero, the range register at offset 0x18
holds the floor base-2 logarithm of that product; when the product is zero
the register instead holds 0xFFFFFFFF (ilog2(0) = -1 cast to u32). -/
theorem set_page_table_range_register (s : RegState) (phys : List Nat)
    (base_addr entry_sz num : Nat)
    (h0 : (set_page_table s phys base_addr entry_sz num).1 = 0)
    (hprod : num * entry_sz % U64 ≠ 0) :
    reg_read32 (applyWrites (set_page_table s phys base_addr entry_sz num).2 s)
      ADDR_RANGE = Nat.log2 (num * entry_sz % U64) := by
  obtain ⟨hcap, hpow, hloop⟩ := set_page_table_ret_zero s phys base_addr entry_sz num h0
  rw [set_page_table_success_trace s phys base_addr entry_sz num hcap hpow hloop,
    applyWrites_append]
  unfold reg_read32
  rw [applyWrites_cons, applyWrites_cons, applyWrites_cons, applyWrites_cons,
    applyWrites_nil]
  rw [applyWrite_other _ _ _ (show ADDR_RANGE ≠ ADDR_ENTRY_NUM from by decide)]
  rw [applyWrite_same _ _ _ rfl]
  have hrange_lt : num * entry_sz % U64 < U64 := Nat.mod_lt _ (by unfold U64; positivity)
  have hlog64 : Nat.log2 (num * entry_sz % U64) < 64 := (Nat.log2_lt hprod).mpr hrange_lt
  have hlog32 : Nat.log2 (num * entry_sz % U64) < U32 := by
    have hb : (64 : Nat) ≤ U32 := by unfold U32; norm_num
    omega
  show ilog2_u32 (num * entry_sz % U64) % U32 % U32 = Nat.log2 (num * entry_sz % U64)
  rw [ilog2_u32_eq_log2 _ hprod hrange_lt, Nat.mod_mod_of_dvd _ dvd_rfl,
    Nat.mod_eq_of_lt hlog32]

/-- Witness for C5 (amended): num = 1, entry_sz = 0x1000, range register 12. -/
theorem set_page_table_range_register_witness :
    reg_read32 (applyWrites (set_page_table capState1 [0x1000] 0 0x1000 1).2 capState1)
      ADDR_RANGE = Nat.log2 (1 * 0x1000 % U64) :=
  set_page_table_range_register capState1 [0x1000] 0 0x1000 1 (by decide) (by decide)

/-- C7: in every successful configure the write to the entry-count register
at offset 0x8 is the last write of the call, and no earlier write in the
sequence touches that register. -/
theorem entry_num_written_last (s : RegState) (phys : List Nat)
    (base_addr entry_sz num : Nat)
    (h0 : (set_page_table s phys base_addr entry_sz num).1 = 0) :
    (set_page_table s phys base_addr entry_sz num).2.getLast? =
      some (ADDR_ENTRY_NUM, num) ∧
    ∀ w ∈ (set_page_table s phys base_addr entry_sz num).2.dropLast,
      w.1 ≠ ADDR_ENTRY_NUM := by
  obtain ⟨hcap, hpow, hloop⟩ := set_page_table_ret_zero s phys base_addr entry_sz num h0
  have hsplit : (set_page_table s phys base_addr entry_sz num).2 =
      ((pageWrites phys 0 num).1 ++
        [(ADDR_BASE_LO, base_addr &&& 0xFFFFFFFF),
         (ADDR_BASE_HI, base_addr >>> 32 &&& 0xFFFFFFFF),
         (ADDR_RANGE, ilog2_u32 (num * entry_sz % U64))]) ++
        [(ADDR_ENTRY_NUM, num)] := by
    rw [set_page_table_success_trace s phys base_addr entry_sz num hcap hpow hloop,
      List.append_assoc]
    rfl
  constructor
  · rw [hsplit, List.getLast?_concat]
  · rw [hsplit, List.dropLast_concat]
    intro w hw
    rcases List.mem_append.mp hw with h | h
    · obtain ⟨j, _, hoff⟩ := pageWrites_offsets phys num 0 w h
      simp only [Nat.zero_add] at hoff
      exact pageTable_offset_ne_small w.1 ADDR_ENTRY_NUM (by decide) ⟨j, hoff⟩
    · fin_cases h
      · exact show ADDR_BASE_LO ≠ ADDR_ENTRY_NUM from by decide
      · exact show ADDR_BASE_HI ≠ ADDR_ENTRY_NUM from by decide
      · exact show ADDR_RANGE ≠ ADDR_ENTRY_NUM from by decide

/-- Witness for C7 at the spec's Scenario 1 inputs: the final write is the
entry count 4 at offset 0x8. -/
theorem entry_num_written_last_witness :
    (set_page_table capState256 [0x1000, 0x2000, 0x3000, 0x4000]
      0x100000000 0x1000 4).2.getLast? = some (ADDR_ENTRY_NUM, 4) :=
  (entry_num_written_last capState256 [0x1000, 0x2000, 0x3000, 0x4000]
    0x100000000 0x1000 4 (by decide)).1

/-- C9: num_entries at most the 9-bit capacity field and a power of two
forces num_entries at most 256, and every write configure issues in the
page-table region lies within the 256-entry register array. -/
theorem page_writes_within_bounds (s : RegState) (phys : List Nat)
    (base_addr entry_sz num c : Nat) :
    (is_power_of_2 num = true → num ≤ c >>> 16 &&& 0x1ff → num ≤ 256) ∧
    (∀ w ∈ (set_page_table s phys base_addr entry_sz num).2, 0x800 ≤ w.1 →
      ∃ i, i < 256 ∧ (w.1 = pageTableLo i ∨ w.1 = pageTableHi i)) := by
  constructor
  · intro hpow hle
    have hcb : c >>> 16 &&& 0x1ff ≤ 0x1ff := Nat.and_le_right
    exact pow2_bound num (by omega) hpow
  · intro w hw hge
    by_cases h1 : get_entries_num s < num
    · rw [set_page_table_capfail s phys base_addr entry_sz num h1] at hw
      simp at hw
    · have hcap := Nat.not_lt.mp h1
      by_cases h2 : is_power_of_2 num = true
      · have hnum256 : num ≤ 256 := by
          have hcb := get_entries_num_le s
          exact pow2_bound num (by omega) h2
        have hmem : w ∈ (pageWrites phys 0 num).1 := by
          by_cases h3 : (pageWrites phys 0 num).2 = true
          · rw [set_page_table_success_trace s phys base_addr entry_sz num hcap h2 h3]
              at hw
            rcases List.mem_append.mp hw with h | h
            · exact h
            · exfalso
              fin_cases h <;>
                simp [ADDR_BASE_LO, ADDR_BASE_HI, ADDR_RANGE, ADDR_ENTRY_NUM] at hge
          · rw [Bool.not_eq_true] at h3
            rw [set_page_table_loopfail s phys base_addr entry_sz num hcap h2 h3] at hw
            exact hw
        obtain ⟨j, hj, hoff⟩ := pageWrites_offsets phys num 0 w hmem
        simp only [Nat.zero_add] at hoff
        exact ⟨j, by omega, hoff⟩
      · rw [Bool.not_eq_true] at h2
        rw [set_page_table_pow2fail s phys base_addr entry_sz num hcap h2] at hw
        simp at hw

/-- Witness for C9: num = 4 is within bounds, and the concrete first
page-table write of Scenario 1 lands at a valid index. -/
theorem page_writes_within_bounds_witness :
    (4 : Nat) ≤ 256 ∧
    (∃ i, i < 256 ∧ (((0x800 : Nat), (0x1000 : Nat)).1 = pageTableLo i ∨
      ((0x800 : Nat), (0x1000 : Nat)).1 = pageTableHi i)) := by
  constructor
  · exact (page_writes_within_bounds capState256 [0x1000, 0x2000, 0x3000, 0x4000]
      0x100000000 0x1000 4 0x1000000).1 (by decide) (by decide)
  · exact (page_writes_within_bounds capState256 [0x1000, 0x2000, 0x3000, 0x4000]
      0x100000000 0x1000 4 0x1000000).2 (0x800, 0x1000) (by decide) (by decide)
